import Mathlib

/-!
Verification of `MergePaths/PathConsensus.cpp` (the PathConsensus program).

The C++ source is shallowly embedded below.  Conventions used throughout:

* `Sequence`/`std::string` is `List Char`; C `islower`/`toupper`/`tolower`
  (ASCII locale) are `Char.isLower`/`Char.toUpper`/`Char.toLower`.
* C++ `assert` failures and fatal out-of-range accesses are modelled as
  `Except.error`; a normal return is `Except.ok`.
* `float` arithmetic is modelled exactly: the identity threshold
  `opt::identity` is a nonnegative rational `num/den`, and a comparison
  `(float)a/b < identity` becomes the exact cross-multiplied comparison
  `a * den < num * b`.  (Division by zero produces an infinite/NaN value
  that compares `false` under `<`, which the cross-multiplied form also
  yields.)
* The external collaborators that the spec declares out of scope
  (constrained graph search, the two alignment oracles, the adjacency
  graph's edge distances and coverage model) are taken as parameters, so
  every theorem quantifies over them.
* Helper code of this repository that is not under `src/`
  (`chomp`, `reverseComplement`, `ContigNode::ambiguousSequence`) is
  modelled from the spec; each such definition says so in its doc comment.
-/

/-- Decidable equality for `Except`, so that runs of the embedded code
can be compared by evaluation. -/
instance {ε α : Type} [DecidableEq ε] [DecidableEq α] :
    DecidableEq (Except ε α) := fun x y =>
  match x, y with
  | .error e1, .error e2 => decidable_of_iff (e1 = e2) (by simp)
  | .ok a1, .ok a2 => decidable_of_iff (a1 = a2) (by simp)
  | .error _, .ok _ => isFalse (by simp)
  | .ok _, .error _ => isFalse (by simp)

/-- An oriented contig reference or an ambiguous gap placeholder
(`ContigNode`).  `amb` is the ambiguity flag; for a real contig `id` is the
contig index and `sense` its strand; for an ambiguous node `id` encodes the
gap length (the spec's "distinguished sentinel carrying a gap length"). -/
structure ContigNode where
  amb : Bool
  id : Nat
  sense : Bool
deriving DecidableEq, Repr, Inhabited

/-- The `operator~` of `ContigNode`: same contig, opposite strand. -/
def complementNode (n : ContigNode) : ContigNode :=
  { n with sense := !n.sense }

/-- `ContigPath` / `Path`: an ordered sequence of contig nodes. -/
abbrev ContigPath := List ContigNode

/-- `AmbPathConstraint` (PathConsensus.cpp:119-141): the Gap Registry key
(source node, destination node, negated gap length). -/
structure AmbPathConstraint where
  source : ContigNode
  dest : ContigNode
  dist : Int
deriving DecidableEq, Repr, Inhabited

/-- The identity threshold `opt::identity` as an exact nonnegative
rational `num/den` (default 9/10). -/
structure IdentityRat where
  num : Nat
  den : Nat
deriving DecidableEq, Repr

/-- The comparison `(float)a / b < t` of the source, modelled exactly
(see the file comment): `a * t.den < t.num * b`. -/
def ratioLt (a b : Nat) (t : IdentityRat) : Bool :=
  a * t.den < t.num * b

/-- The comparison `identity == 1` of `alignMulti` where
`identity = (float)matches / consensus.size()`: true exactly when the two
counts are equal and the denominator is nonzero (0/0 is NaN, which
compares unequal to 1). -/
def ratioEqOne (m size : Nat) : Bool :=
  m = size && 0 < size

/-- Modelled from the spec: `chomp` of `Common/StringUtil.h` (not under
`src/`).  The merge loop "trims exactly one trailing base (if it is
already a masked/inserted filler)": remove the final character when it
equals `c`, reporting failure otherwise. -/
def chomp (s : List Char) (c : Char) : Option (List Char) :=
  if s.getLast? = some c then some s.dropLast else none

/-- Modelled from the spec: the DNA complement of one base (used by
`reverseComplement` of `Common/Sequence.h`, not under `src/`).  Case is
preserved; the wildcard and any other character are self-complementary. -/
def complementBase (c : Char) : Char :=
  if c = 'A' then 'T' else if c = 'T' then 'A'
  else if c = 'C' then 'G' else if c = 'G' then 'C'
  else if c = 'a' then 't' else if c = 't' then 'a'
  else if c = 'c' then 'g' else if c = 'g' then 'c'
  else c

/-- Modelled from the spec: `reverseComplement` of `Common/Sequence.h`
(not under `src/`); per the glossary, the reverse of the base-wise
complement. -/
def reverseComplement (s : List Char) : List Char :=
  (s.map complementBase).reverse

/-- The per-base consensus loop of `createConsensus`
(PathConsensus.cpp:304-315): `none` models the early `return string("")`
on a conflict. -/
def consensusLoop : List Char → List Char → Option (List Char)
  | a :: as, b :: bs =>
    let mask := a.isLower || b.isLower
    let ca := a.toUpper
    let cb := b.toUpper
    let c := if ca = cb then ca
      else if ca = 'N' then cb
      else if cb = 'N' then ca
      else 'x'
    if c = 'x' then none
    else (consensusLoop as bs).map (fun s => (if mask then c.toLower else c) :: s)
  | _, _ => some []

def eConsensusLen : String := "assert: a.length() == b.length()"

/-- `createConsensus` (PathConsensus.cpp:297-317).  Returns the empty
list exactly when no consensus exists; the length assert is modelled as
an error. -/
def createConsensus (a b : List Char) : Except String (List Char) :=
  if a.length = b.length then
    if a = b then .ok a
    else .ok ((consensusLoop a b).getD [])
  else .error eConsensusLen

def eSeqLen : String := "assert: seq.length() > overlap"

def eSLen : String := "assert: s.length() > overlap"

/-- The do-while retry loop of `mergeContigs` (PathConsensus.cpp:330-334):
repeatedly take the trailing `overlap` bases of `seq` as `ao`, attempt a
consensus against `bo`, and on a conflict chomp one trailing `'n'` filler
and retry.  Returns the possibly-chomped `seq` together with the final
consensus attempt `o`. -/
def mergeLoop (overlap : Nat) (bo : List Char) (seq : List Char) :
    Except String (List Char × List Char) :=
  if overlap < seq.length then
    match createConsensus (seq.drop (seq.length - overlap)) bo with
    | .error e => .error e
    | .ok o =>
      if o.isEmpty then
        match hc : chomp seq 'n' with
        | some seq2 => mergeLoop overlap bo seq2
        | none => .ok (seq, o)
      else .ok (seq, o)
  else .error eSeqLen
termination_by seq.length
decreasing_by
  have hne : seq ≠ [] := by intro he; subst he; simp [chomp] at hc
  have hl : seq.getLast? = some 'n' := by
    by_cases hq : seq.getLast? = some 'n'
    · exact hq
    · rw [chomp, if_neg hq] at hc; cases hc
  have ht : seq2 = seq.dropLast := by
    rw [chomp, if_pos hl] at hc
    simpa using hc.symm
  subst ht
  have hpos : 0 < seq.length := List.length_pos.mpr hne
  rw [List.length_dropLast]
  omega

/-- `mergeContigs` (PathConsensus.cpp:323-346).  The stderr warning of the
mismatch fallback is modelled by the Bool component (`true` = warned); the
`node`/`path` arguments of the C++ signature only feed that diagnostic
text and are omitted. -/
def mergeContigs (overlap : Nat) (seq s : List Char) :
    Except String (List Char × Bool) :=
  if overlap < s.length then
    let bo := s.take overlap
    match mergeLoop overlap bo seq with
    | .error e => .error e
    | .ok r =>
      if r.2.isEmpty then .ok (r.1 ++ 'n' :: s, true)
      else .ok (r.1.take (r.1.length - overlap) ++ r.2 ++ s.drop overlap, false)
  else .error eSLen

/-- The configuration of the run (the `opt` namespace,
PathConsensus.cpp:69-87). -/
structure Ctx where
  k : Nat
  identity : IdentityRat
  numBranches : Nat
  maxCost : Nat
  distanceError : Nat
  contigs : List (List Char)
deriving Repr

/-- The contig adjacency graph, reduced to the two observations the core
makes of it: the signed edge distance (`get(edge_bundle, g, u, v)
.distance`) and the coverage aggregate of a path (`addProp`, external). -/
structure GraphModel where
  dist : ContigNode → ContigNode → Int
  cov : ContigPath → Nat

/-- `getSequence` (PathConsensus.cpp:154-165).  `ambiguousSequence` of
ContigNode.h is not under `src/` and is modelled from the spec as a run of
`N`s of the encoded gap length.  An out-of-range contig access (UB in
C++) yields the empty default. -/
def getSequence (ctx : Ctx) (n : ContigNode) : List Char :=
  if n.amb then
    let s := List.replicate n.id 'N'
    let s2 := if s.length < ctx.k then s.map Char.toLower else s
    List.replicate (ctx.k - 1) 'N' ++ s2
  else
    let seq := ctx.contigs.getD n.id []
    if n.sense then reverseComplement seq else seq

def eDist : String := "assert: d < 0"

/-- The iteration of `mergePath` past its first node
(PathConsensus.cpp:352-363). -/
def mergePathGo (ctx : Ctx) (g : GraphModel) (prev : ContigNode)
    (rest : List ContigNode) (seq : List Char) : Except String (List Char) :=
  match rest with
  | [] => .ok seq
  | n :: rest2 =>
    if seq.isEmpty then mergePathGo ctx g n rest2 (getSequence ctx n)
    else
      let d := g.dist prev n
      if d < 0 then
        match mergeContigs (-d).toNat seq (getSequence ctx n) with
        | .ok r => mergePathGo ctx g n rest2 r.1
        | .error e => .error e
      else .error eDist

/-- `mergePath` (PathConsensus.cpp:348-365). -/
def mergePath (ctx : Ctx) (g : GraphModel) (path : ContigPath) :
    Except String (List Char) :=
  match path with
  | [] => .ok []
  | n :: rest => mergePathGo ctx g n rest (getSequence ctx n)

/-- The run-summary counters (PathConsensus.cpp:110-117). -/
structure Stats where
  numAmbPaths : Nat := 0
  numMerged : Nat := 0
  numNoSolutions : Nat := 0
  numTooManySolutions : Nat := 0
  tooComplex : Nat := 0
  notMerged : Nat := 0
deriving DecidableEq, Repr

/-- A pending new graph vertex (PathConsensus.cpp:238-248): the two
flanking nodes, the new node, and the (length, coverage) property. -/
structure NewVertex where
  t : ContigNode
  u : ContigNode
  v : ContigNode
  len : Nat
  cov : Nat
deriving DecidableEq, Repr

/-- One record of the consensus FASTA output (PathConsensus.cpp:272-290):
id, length, coverage, the contributing interior node slices (an empty
slice renders as the `*` marker), and the sequence. -/
structure FastaRec where
  id : Nat
  len : Nat
  cov : Nat
  cores : List ContigPath
  seq : List Char
deriving DecidableEq, Repr

/-- The mutable process state: the fresh-contig counter (`ContigID`
allocation, external), `g_newVertices`, the consensus FASTA stream and
the `stats` counters. -/
structure St where
  nextId : Nat
  newVertices : List NewVertex
  fasta : List FastaRec
  stats : Stats
deriving DecidableEq, Repr

def eONC : String := "assert: outputNewContig preconditions"

def eFirstLast : String := "assert: first <= last"

/-- `outputNewContig` (PathConsensus.cpp:254-292). -/
def outputNewContig (solutions : List ContigPath) (pre suf : Nat)
    (seq : List Char) (coverage : Nat) (st : St) : Except String (Nat × St) :=
  if solutions ≠ [] ∧ 0 < pre ∧ 0 < suf then
    if solutions.all (fun p => pre + suf ≤ p.length) then
      let id := st.nextId
      let sol0 := solutions.headD []
      let nv : NewVertex :=
        { t := sol0.getD (pre - 1) default
          u := { amb := false, id := id, sense := false }
          v := sol0.getD (sol0.length - suf) default
          len := seq.length
          cov := coverage }
      let fr : FastaRec :=
        { id := id, len := seq.length, cov := coverage
          cores := solutions.map (fun p => (p.take (p.length - suf)).drop pre)
          seq := seq }
      .ok (id, { st with nextId := id + 1
                         newVertices := st.newVertices ++ [nv]
                         fasta := st.fasta ++ [fr] })
    else .error eFirstLast
  else .error eONC

/-- The index of the first node-wise mismatch (`std::mismatch`,
PathConsensus.cpp:425-426); `none` when the first range is exhausted. -/
def mismatchIdx : List ContigNode → List ContigNode → Option Nat
  | a :: as, b :: bs =>
    if a = b then (mismatchIdx as bs).map (fun i => i + 1) else some 0
  | _, _ => none

/-- The pairwise alignment oracle `alignGlobal` (external): match count,
alignment length and consensus sequence. -/
abbrev NWOracle := List Char → List Char → Nat × Nat × List Char

/-- The multi-sequence alignment oracle `dialign` (external): match count
and consensus sequence. -/
abbrev MultiOracle := List (List Char) → Nat × List Char

def eAP2 : String := "assert: solutions.size() == 2"

def eAPpre : String := "assert: alignPair front and back preconditions"

def eAPsol : String := "assert: !sol.empty()"

def eAPk : String := "assert: consensus.size() > k-1"

def eAPmm : String := "assert: it.first != fstSol.end()"

def eAPpal : String := "assert: pairwise palindrome structure"

/-- `alignPair` (PathConsensus.cpp:378-478). -/
def alignPair (ctx : Ctx) (g : GraphModel) (nw : NWOracle)
    (solutions : List ContigPath) (st : St) :
    Except String (ContigPath × St) :=
  match solutions with
  | [s0, s1] =>
    if 1 < s0.length ∧ 1 < s1.length ∧ s0.head? = s1.head?
        ∧ s0.getLast? = s1.getLast? then
      let fstSol := (s0.drop 1).dropLast
      let sndSol := (s1.drop 1).dropLast
      if fstSol.isEmpty || sndSol.isEmpty then
        let sol := if fstSol.isEmpty then sndSol else fstSol
        if sol.isEmpty then .error eAPsol
        else
          match mergePath ctx g sol with
          | .error e => .error e
          | .ok cons0 =>
            if ctx.k - 1 < cons0.length then
              let consensus :=
                cons0.take (ctx.k - 1) ++ (cons0.drop (ctx.k - 1)).map Char.toLower
              if ratioLt (ctx.k - 1) consensus.length ctx.identity then .ok ([], st)
              else
                match outputNewContig [s0, s1] 1 1 consensus (g.cov sol) st with
                | .error e => .error e
                | .ok (id, st2) =>
                  .ok ([s0.headD default, { amb := false, id := id, sense := false },
                        s0.getLastD default], st2)
            else .error eAPk
      else
        match mergePath ctx g fstSol, mergePath ctx g sndSol with
        | .ok f1, .ok f2 =>
          if f1 = f2 then
            if fstSol.length = sndSol.length then
              match mismatchIdx fstSol sndSol with
              | none => .error eAPmm
              | some i =>
                if fstSol.getD i default = complementNode (sndSol.getD i default)
                    ∧ fstSol.drop (i + 1) = sndSol.drop (i + 1) then
                  .ok (s0, st)
                else .error eAPpal
            else
              .ok ((if sndSol.length < fstSol.length then s0 else s1), st)
          else
            let minL := min f1.length f2.length
            let maxL := max f1.length f2.length
            if ratioLt minL maxL ctx.identity then .ok ([], st)
            else
              let r := nw f1 f2
              if ratioLt r.1 r.2.1 ctx.identity then .ok ([], st)
              else
                match outputNewContig [s0, s1] 1 1 r.2.2
                    (g.cov fstSol + g.cov sndSol) st with
                | .error e => .error e
                | .ok (id, st2) =>
                  .ok ([s0.headD default, { amb := false, id := id, sense := false },
                        s0.getLastD default], st2)
        | .error e, _ => .error e
        | _, .error e => .error e
    else .error eAPpre
  | _ => .error eAP2

/-- Fold-based minimum of the solution sizes (PathConsensus.cpp:487-491). -/
def minSizes (solutions : List ContigPath) : Nat :=
  solutions.foldl (fun m p => min m p.length) (solutions.headD []).length

/-- The longest-common-prefix scan (PathConsensus.cpp:493-512): the number
of leading positions at which every solution agrees with the first. -/
def lcpLen (solutions : List ContigPath) (minLen : Nat) : Nat :=
  ((List.range minLen).takeWhile fun i =>
    solutions.all fun p =>
      p.getD i default = (solutions.headD []).getD i default).length

/-- The longest-common-suffix scan (PathConsensus.cpp:514-536), bounded by
`minLen - preLen`. -/
def lcsLen (solutions : List ContigPath) (minLen preLen : Nat) : Nat :=
  ((List.range (minLen - preLen)).takeWhile fun i =>
    solutions.all fun p =>
      p.getD (p.length - i - 1) default
        = (solutions.headD []).getD ((solutions.headD []).length - i - 1) default).length

def eAMsize : String := "assert: longestPrefix + longestSuffix <= size"

def eSubstr : String := "substr: out of range"

/-- The per-solution divergent-core extraction of `alignMulti`
(PathConsensus.cpp:543-558): the core sequences in order, and the summed
coverage of the non-empty cores. -/
def ambSeqsGo (ctx : Ctx) (g : GraphModel) (sol0 : ContigPath)
    (pre suf : Nat) : List ContigPath → Except String (List (List Char) × Nat)
  | [] => .ok ([], 0)
  | p :: rest =>
    if pre + suf ≤ p.length then
      let core := (p.take (p.length - suf)).drop pre
      if core.isEmpty then
        let s := getSequence ctx (sol0.getD (pre - 1) default)
        if 1 ≤ ctx.k ∧ ctx.k - 1 ≤ s.length then
          match ambSeqsGo ctx g sol0 pre suf rest with
          | .error e => .error e
          | .ok (seqs, cov) => .ok (s.drop (s.length - (ctx.k - 1)) :: seqs, cov)
        else .error eSubstr
      else
        match mergePath ctx g core with
        | .error e => .error e
        | .ok sq =>
          match ambSeqsGo ctx g sol0 pre suf rest with
          | .error e => .error e
          | .ok (seqs, cov) => .ok (sq :: seqs, g.cov core + cov)
    else .error eAMsize

/-- Fold-based `*min_element` over a nonempty list of lengths
(PathConsensus.cpp:563). -/
def minNat (l : List Nat) : Nat := l.foldl min (l.headD 0)

/-- Fold-based `*max_element` over a nonempty list of lengths
(PathConsensus.cpp:564). -/
def maxNat (l : List Nat) : Nat := l.foldl max (l.headD 0)

def ePreSuf : String := "assert: longestPrefix > 0 && longestSuffix > 0"

def ePal2 : String := "assert: multi palindrome verification"

/-- `alignMulti` (PathConsensus.cpp:483-615).  The `ifndef NDEBUG`
palindrome verification block is modelled as checks, like the plain
asserts. -/
def alignMulti (ctx : Ctx) (g : GraphModel) (dl : MultiOracle)
    (solutions : List ContigPath) (st : St) :
    Except String (ContigPath × St) :=
  let sol0 := solutions.headD []
  let minLen := minSizes solutions
  let pre := lcpLen solutions minLen
  let suf := lcsLen solutions minLen pre
  if 0 < pre ∧ 0 < suf then
    match ambSeqsGo ctx g sol0 pre suf solutions with
    | .error e => .error e
    | .ok (ambSeqs, coverage) =>
      let lengths := ambSeqs.map List.length
      if ratioLt (minNat lengths) (maxNat lengths) ctx.identity then .ok ([], st)
      else
        let r := dl ambSeqs
        if ratioLt r.1 r.2.length ctx.identity then .ok ([], st)
        else if ratioEqOne r.1 r.2.length then
          let pal0 := (sol0.getD pre default).id
          let pal1 := (sol0.getD (sol0.length - 1 - suf) default).id
          let t0 := getSequence ctx { amb := false, id := pal0, sense := false }
          let t1 := getSequence ctx { amb := false, id := pal1, sense := false }
          if t0 = reverseComplement t0 ∧ t1 = reverseComplement t1
              ∧ solutions.all (fun p =>
                  (p.getD pre default).id = pal0
                  ∧ (p.getD (p.length - 1 - suf) default).id = pal1
                  ∧ p.length = sol0.length) then
            .ok (sol0, st)
          else .error ePal2
        else
          match outputNewContig solutions pre suf r.2 coverage st with
          | .error e => .error e
          | .ok (id, st2) =>
            .ok (sol0.take pre
                  ++ { amb := false, id := id, sense := false }
                  :: sol0.drop (sol0.length - suf), st2)
  else .error ePreSuf

def eAlign : String := "assert: sequences.size() > 1"

/-- `align` (PathConsensus.cpp:620-627). -/
def alignF (ctx : Ctx) (g : GraphModel) (nw : NWOracle) (dl : MultiOracle)
    (sequences : List ContigPath) (st : St) :
    Except String (ContigPath × St) :=
  if 1 < sequences.length then
    if sequences.length = 2 then alignPair ctx g nw sequences st
    else alignMulti ctx g dl sequences st
  else .error eAlign

/-- `markSeen` for one path (PathConsensus.cpp:219-227). -/
def markSeen (seen : List Bool) (path : ContigPath) (flag : Bool) : List Bool :=
  path.foldl
    (fun sn nd => if nd.amb = false ∧ nd.id < sn.length then sn.set nd.id flag else sn)
    seen

/-- `markSeen` for a list of paths (PathConsensus.cpp:229-236). -/
def markSeenPaths (seen : List Bool) (paths : List ContigPath) (flag : Bool) :
    List Bool :=
  paths.foldl (fun sn p => markSeen sn p flag) seen

/-- The constrained search `constrainedSearch` (external): given the
source, the destination and the distance bound `dist + distanceError`, it
returns the candidate paths (excluding the source node) and the
visitation count. -/
abbrev SearchOracle := ContigNode → ContigNode → Int → List ContigPath × Nat

/-- `fillGap` (PathConsensus.cpp:630-690). -/
def fillGap (ctx : Ctx) (g : GraphModel) (nw : NWOracle) (dl : MultiOracle)
    (search : SearchOracle) (apc : AmbPathConstraint) (seen : List Bool)
    (st : St) : Except String (ContigPath × List Bool × St) :=
  let sr := search apc.source apc.dest (apc.dist + (ctx.distanceError : Int))
  let solutions := sr.1.map (fun p => apc.source :: p)
  if ctx.maxCost ≤ sr.2 then
    .ok ([], seen,
      { st with stats := { st.stats with tooComplex := st.stats.tooComplex + 1 } })
  else if ctx.numBranches < solutions.length then
    .ok ([], seen,
      { st with stats :=
        { st.stats with numTooManySolutions := st.stats.numTooManySolutions + 1 } })
  else if solutions.isEmpty then
    .ok ([], seen,
      { st with stats :=
        { st.stats with numNoSolutions := st.stats.numNoSolutions + 1 } })
  else if solutions.length = 1 then
    .ok ([], seen,
      { st with stats := { st.stats with numMerged := st.stats.numMerged + 1 } })
  else
    match alignF ctx g nw dl solutions st with
    | .error e => .error e
    | .ok (consensus, st2) =>
      if consensus.isEmpty then
        .ok (consensus, seen,
          { st2 with stats :=
            { st2.stats with notMerged := st2.stats.notMerged + 1 } })
      else
        .ok (consensus, markSeenPaths seen solutions true,
          { st2 with stats :=
            { st2.stats with numMerged := st2.stats.numMerged + 1 } })

/-- The interior-node scan of `readPath` (PathConsensus.cpp:192-213): the
Gap Registry keys contributed by one path, in scan order.  The scan
visits exactly the interior positions `1 .. length-2`. -/
def pathConstraints (p : ContigPath) : List AmbPathConstraint :=
  if p.length ≤ 2 then []
  else ((List.range (p.length - 2)).map (fun j => j + 1)).filterMap fun i =>
    let nd := p.getD i default
    if nd.amb then
      some { source := p.getD (i - 1) default, dest := p.getD (i + 1) default,
             dist := -(nd.id : Int) }
    else none

/-- The per-path ambiguity flag `cur_is_amb` (PathConsensus.cpp:192-213). -/
def pathIsAmb (p : ContigPath) : Bool :=
  if p.length ≤ 2 then false
  else ((List.range (p.length - 2)).map (fun j => j + 1)).any
    fun i => (p.getD i default).amb

/-- `std::map::insert` keeps the existing entry when the key is already
present (PathConsensus.cpp:208-210).  The map is modelled as an
association list with pairwise-distinct keys; its iteration order differs
from std::map's key order, on which no claim depends. -/
def registryInsert (m : List (AmbPathConstraint × ContigPath))
    (key : AmbPathConstraint) : List (AmbPathConstraint × ContigPath) :=
  if m.any (fun e => e.1 = key) then m else m ++ [(key, [])]

/-- The Gap Registry `g_ambpath_contig` seeded by `readPath`
(PathConsensus.cpp:171-217) from the parsed input paths. -/
def loadRegistry (paths : List ContigPath) :
    List (AmbPathConstraint × ContigPath) :=
  paths.foldl (fun m p => (pathConstraints p).foldl registryInsert m) []

/-- The gap-resolution loop of `main` (PathConsensus.cpp:816-818): every
registry entry is overwritten with the `fillGap` result for its key. -/
def resolveAll (ctx : Ctx) (g : GraphModel) (nw : NWOracle) (dl : MultiOracle)
    (search : SearchOracle) :
    List (AmbPathConstraint × ContigPath) → List Bool → St →
    Except String (List (AmbPathConstraint × ContigPath) × List Bool × St)
  | [], seen, st => .ok ([], seen, st)
  | e :: rest, seen, st =>
    match fillGap ctx g nw dl search e.1 seen st with
    | .error err => .error err
    | .ok (c, seen2, st2) =>
      match resolveAll ctx g nw dl search rest seen2 st2 with
      | .error err => .error err
      | .ok (res, seen3, st3) => .ok ((e.1, c) :: res, seen3, st3)

/-- `g_ambpath_contig.find` (PathConsensus.cpp:859-861). -/
def lookupReg (m : List (AmbPathConstraint × ContigPath))
    (key : AmbPathConstraint) : Option ContigPath :=
  (m.find? (fun e => decide (e.1 = key))).map (fun e => e.2)

def eNext : String := "assert: next != path.end()"

def eFind : String := "assert: ambIt != g_ambpath_contig.end()"

def eSol1 : String := "assert: solution.size() > 1"

/-- The placeholder-rewriting pass of `main` (PathConsensus.cpp:846-869)
for one ambiguous path. -/
def rewritePath (m : List (AmbPathConstraint × ContigPath)) (p : ContigPath) :
    Except String ContigPath :=
  ((List.range (p.length - 1)).map (fun j => j + 1)).foldlM
    (fun cur i =>
      let nd := p.getD i default
      if nd.amb = false then .ok (cur ++ [nd])
      else if p.length ≤ i + 1 then .error eNext
      else
        match lookupReg m { source := p.getD (i - 1) default,
                            dest := p.getD (i + 1) default,
                            dist := -(nd.id : Int) } with
        | none => .error eFind
        | some sol =>
          if sol.isEmpty then .ok (cur ++ [nd])
          else if 1 < sol.length then .ok (cur ++ (sol.drop 1).dropLast)
          else .error eSol1)
    [p.headD default]

/-- The observable outputs of a run: the single-contig lines, the
rewritten path lines, the run-summary counters, the consensus FASTA
records and the pending new graph vertices. -/
structure Output where
  singletons : List Nat
  outPaths : List ContigPath
  stats : Stats
  fasta : List FastaRec
  newVertices : List NewVertex
deriving DecidableEq, Repr

def ePathSize : String := "assert: path.size() > 2"

/-- The post-parse pipeline of `main` (PathConsensus.cpp:790-884): seed
the registry, resolve every gap, unmark contigs used in paths or
resolutions, then emit the leftover single-contig lines and the rewritten
paths.  `startId` is the first fresh contig id
(`ContigID::setNextContigID`, external). -/
def mainPipeline (ctx : Ctx) (g : GraphModel) (nw : NWOracle)
    (dl : MultiOracle) (search : SearchOracle) (paths : List ContigPath)
    (startId : Nat) : Except String Output :=
  let reg := loadRegistry paths
  let st0 : St := { nextId := startId, newVertices := [], fasta := [],
                    stats := { numAmbPaths := reg.length } }
  let seen0 := List.replicate ctx.contigs.length false
  match resolveAll ctx g nw dl search reg seen0 st0 with
  | .error e => .error e
  | .ok (res, seen1, st1) =>
    let seen2 := res.foldl (fun sn e => markSeen sn e.2 false) seen1
    let seen3 := markSeenPaths seen2 paths false
    let singles := (List.range ctx.contigs.length).filter
      (fun i => seen3.getD i false)
    match paths.mapM (fun p =>
        if pathIsAmb p then
          if 2 < p.length then rewritePath res p else .error ePathSize
        else .ok p) with
    | .error e => .error e
    | .ok outs =>
      .ok { singletons := singles, outPaths := outs, stats := st1.stats,
            fasta := st1.fasta, newVertices := st1.newVertices }

/-- The DNA base alphabet the spec's per-base consensus rule quantifies
over (upper- and lowercase bases plus the wildcard). -/
def consensusBases : List Char := ['A', 'C', 'G', 'T', 'N', 'a', 'c', 'g', 't', 'n']

/-- The spec's case rule: "if either input base was lowercase, output is
lowercase", uppercase otherwise. -/
def specCaseRule (a b x : Char) : Char :=
  if a.isLower || b.isLower then x.toLower else x.toUpper

/-- The refinement target for the per-base consensus, following the
spec's words: keep `a` when `a` and `b` agree case-insensitively; take
the other base when one side is the wildcard; otherwise the merge fails
(`none`).  Case of the kept value follows `specCaseRule`. -/
def specConsensusBase (a b : Char) : Option Char :=
  if a.toUpper = b.toUpper then some (specCaseRule a b a)
  else if b.toUpper = 'N' then some (specCaseRule a b a)
  else if a.toUpper = 'N' then some (specCaseRule a b b)
  else none

/-- The sum of the five per-gap outcome counters (every line of the run
summary except "Ambiguous paths", PathConsensus.cpp:878-884). -/
def statsSum (s : Stats) : Nat :=
  s.numMerged + s.numNoSolutions + s.numTooManySolutions
    + s.tooComplex + s.notMerged

/-- Path `p` references contig `i` through a non-ambiguous node (the
occurrences `markSeen` acts on). -/
def refNode (i : Nat) (p : ContigPath) : Prop :=
  ∃ nd ∈ p, nd.amb = false ∧ nd.id = i

instance (i : Nat) (p : ContigPath) : Decidable (refNode i p) := by
  unfold refNode
  infer_instance

/-- Some path of `ps` references contig `i`. -/
def refNodeList (i : Nat) (ps : List ContigPath) : Prop :=
  ∃ p ∈ ps, refNode i p

instance (i : Nat) (ps : List ContigPath) : Decidable (refNodeList i ps) := by
  unfold refNodeList
  infer_instance

/-- The number of registry entries carrying key `k`. -/
def countKey (m : List (AmbPathConstraint × ContigPath))
    (k : AmbPathConstraint) : Nat :=
  (m.map Prod.fst).count k

/-- Fixture: a source endpoint contig node. -/
def cnS : ContigNode := { amb := false, id := 0, sense := false }

/-- Fixture: a destination endpoint contig node. -/
def cnT : ContigNode := { amb := false, id := 1, sense := false }

/-- Fixture: an ambiguous placeholder of gap length 3. -/
def cnGap3 : ContigNode := { amb := true, id := 3, sense := false }

/-- Fixture: the palindromic contig (id 2, sequence ACGT), forward. -/
def cnP0 : ContigNode := { amb := false, id := 2, sense := false }

/-- Fixture: the palindromic contig (id 2), reverse strand. -/
def cnP1 : ContigNode := { amb := false, id := 2, sense := true }

/-- Fixture: the contig of length 10 (id 3). -/
def cnL10 : ContigNode := { amb := false, id := 3, sense := false }

/-- Fixture: the contig of length 4 (id 4). -/
def cnL4 : ContigNode := { amb := false, id := 4, sense := false }

/-- Fixture: default threshold 9/10 and five contigs of lengths
4, 4, 4 (palindromic), 10 and 4. -/
def fixCtx : Ctx :=
  { k := 4, identity := { num := 9, den := 10 }, numBranches := 4,
    maxCost := 100, distanceError := 6,
    contigs := ["AAAA".toList, "CCCC".toList, "ACGT".toList,
                List.replicate 10 'G', List.replicate 4 'T'] }

/-- Fixture: a graph whose every edge overlaps by one and whose coverage
aggregate is zero. -/
def fixGraph : GraphModel := { dist := fun _ _ => -1, cov := fun _ => 0 }

/-- Fixture: a pairwise oracle reporting no matches. -/
def fixNW : NWOracle := fun _ _ => (0, 1, [])

/-- Fixture: a multi oracle reporting no matches. -/
def fixDL : MultiOracle := fun _ => (0, [])

/-- Fixture: a search returning one candidate (the destination alone)
with no visitation cost. -/
def searchOne : SearchOracle := fun _ dst _ => ([[dst]], 0)

/-- Fixture: a search whose visitation count reaches the fixture budget
of 100 while still returning a candidate. -/
def searchBusy : SearchOracle := fun _ dst _ => ([[dst]], 100)

/-- Fixture: an empty initial process state. -/
def fixSt : St := { nextId := 9, newVertices := [], fasta := [], stats := {} }

/-- Fixture: the registry key of the gap between `cnS` and `cnT` of
length 3. -/
def fixKey : AmbPathConstraint := { source := cnS, dest := cnT, dist := -3 }

/-- Fixture: two input paths referencing the identical gap. -/
def fixPaths2 : List ContigPath := [[cnS, cnGap3, cnT], [cnS, cnGap3, cnT]]

/-- C3: for every pair of bases, the per-base overlap consensus keeps the
base when the two agree case-insensitively, takes the other base when one
side is the wildcard `N`, and otherwise the whole consensus attempt fails
with the empty string; the output base is lowercase exactly when at least
one input base was lowercase, and uppercase otherwise.  `createConsensus`
is compared position-wise (singleton sequences) against the spec's rule
`specConsensusBase`. -/
theorem claim_C3_consensus_base_rule :
    ∀ a ∈ consensusBases, ∀ b ∈ consensusBases,
      createConsensus [a] [b]
        = .ok ((specConsensusBase a b).elim [] fun c => [c]) := by
  decide

/-- Witness for C3 at the pair (a, N): the wildcard yields the other
base, lowercased because one input was lowercase. -/
theorem claim_C3_witness :
    createConsensus ['a'] ['N']
      = .ok ((specConsensusBase 'a' 'N').elim [] fun c => [c]) :=
  claim_C3_consensus_base_rule 'a' (by decide) 'N' (by decide)

/-- C1 (code-bug evidence): a gap whose constrained search returns
exactly one candidate (budget not reached) consults no alignment oracle
(the result below holds for every `nw` and `dl`) and is counted as
"merged" in the run summary — but, contradicting the spec and the
summary label, the candidate is discarded: the registry keeps the empty
resolution and the final rewriting pass leaves the ambiguous placeholder
`cnGap3` in the output path instead of splicing the candidate. -/
theorem claim_C1_single_candidate_run :
    ∀ (nw : NWOracle) (dl : MultiOracle),
      mainPipeline fixCtx fixGraph nw dl searchOne [[cnS, cnGap3, cnT]] 5
        = .ok { singletons := [], outPaths := [[cnS, cnGap3, cnT]],
                stats := { numAmbPaths := 1, numMerged := 1 },
                fasta := [], newVertices := [] } := by
  intro nw dl
  rfl

/-- C4: a gap whose search reached the visitation budget is classified
"too complex" before any other classification (the conclusion holds
whatever candidate list the search produced), its candidates are
discarded (empty resolution), only the too-complex counter moves, no
alignment oracle is consulted (`nw`/`dl` arbitrary), the seen marks are
untouched and the run is not aborted (`Except.ok`). -/
theorem claim_C4_too_complex (ctx : Ctx) (g : GraphModel) (nw : NWOracle)
    (dl : MultiOracle) (search : SearchOracle) (apc : AmbPathConstraint)
    (seen : List Bool) (st : St)
    (h : ctx.maxCost
        ≤ (search apc.source apc.dest (apc.dist + (ctx.distanceError : Int))).2) :
    fillGap ctx g nw dl search apc seen st
      = .ok ([], seen,
          { st with stats :=
            { st.stats with tooComplex := st.stats.tooComplex + 1 } }) := by
  simp [fillGap, h]

/-- Witness for C4: a search that returns a candidate yet reports 100
visited vertices against the fixture budget of 100. -/
theorem claim_C4_witness :
    fillGap fixCtx fixGraph fixNW fixDL searchBusy fixKey [false] fixSt
      = .ok ([], [false],
          { fixSt with stats :=
            { fixSt.stats with tooComplex := fixSt.stats.tooComplex + 1 } }) :=
  claim_C4_too_complex fixCtx fixGraph fixNW fixDL searchBusy fixKey [false]
    fixSt (by decide)

/-- C7: in both consensus builders, when the ratio of the shortest to the
longest merged candidate sequence length is below the identity threshold,
the gap is rejected (empty resolution, state untouched) without invoking
the pairwise (`nw`) or multi (`dl`) alignment oracle — the conclusion
holds for every oracle.  The witness instantiates the claim's concrete
instance: merged lengths 10 and 4 against threshold 9/10. -/
theorem claim_C7_length_ratio_prefilter :
    (∀ (ctx : Ctx) (g : GraphModel) (s0 s1 : ContigPath) (st : St)
        (f1 f2 : List Char),
      1 < s0.length → 1 < s1.length → s0.head? = s1.head? →
      s0.getLast? = s1.getLast? →
      ((s0.drop 1).dropLast).isEmpty = false →
      ((s1.drop 1).dropLast).isEmpty = false →
      mergePath ctx g ((s0.drop 1).dropLast) = .ok f1 →
      mergePath ctx g ((s1.drop 1).dropLast) = .ok f2 →
      f1 ≠ f2 →
      ratioLt (min f1.length f2.length) (max f1.length f2.length)
        ctx.identity = true →
      ∀ nw : NWOracle, alignPair ctx g nw [s0, s1] st = .ok ([], st))
    ∧ (∀ (ctx : Ctx) (g : GraphModel) (solutions : List ContigPath) (st : St)
        (seqs : List (List Char)) (cov : Nat),
      0 < lcpLen solutions (minSizes solutions) →
      0 < lcsLen solutions (minSizes solutions)
          (lcpLen solutions (minSizes solutions)) →
      ambSeqsGo ctx g (solutions.headD []) (lcpLen solutions (minSizes solutions))
        (lcsLen solutions (minSizes solutions)
          (lcpLen solutions (minSizes solutions))) solutions = .ok (seqs, cov) →
      ratioLt (minNat (seqs.map List.length)) (maxNat (seqs.map List.length))
        ctx.identity = true →
      ∀ dl : MultiOracle, alignMulti ctx g dl solutions st = .ok ([], st)) := by
  constructor
  · intro ctx g s0 s1 st f1 f2 h1 h2 h3 h4 h5 h6 h7 h8 h9 h10 nw
    simp only [alignPair]
    rw [if_pos ⟨h1, h2, h3, h4⟩]
    simp only [h5, h6, Bool.or_self, Bool.false_eq_true, if_false, h7, h8]
    rw [if_neg h9, if_pos h10]
  · intro ctx g solutions st seqs cov hp hs hab hr dl
    simp only [alignMulti]
    rw [if_pos ⟨hp, hs⟩]
    simp only [hab]
    rw [if_pos hr]

/-- Witness for C7: the claim's own instance in both builders — candidate
interiors merging to sequences of lengths 10 and 4 (ratio 2/5) against
the default threshold 9/10 are rejected with the fixture oracles. -/
theorem claim_C7_witness :
    alignPair fixCtx fixGraph fixNW [[cnS, cnL10, cnT], [cnS, cnL4, cnT]] fixSt
        = .ok ([], fixSt)
    ∧ alignMulti fixCtx fixGraph fixDL
        [[cnS, cnL10, cnT], [cnS, cnL10, cnT], [cnS, cnL4, cnT]] fixSt
        = .ok ([], fixSt) :=
  ⟨claim_C7_length_ratio_prefilter.1 fixCtx fixGraph [cnS, cnL10, cnT]
      [cnS, cnL4, cnT] fixSt (List.replicate 10 'G') (List.replicate 4 'T')
      (by decide) (by decide) (by decide) (by decide) (by decide) (by decide)
      (by decide) (by decide) (by decide) (by decide) fixNW,
   claim_C7_length_ratio_prefilter.2 fixCtx fixGraph
      [[cnS, cnL10, cnT], [cnS, cnL10, cnT], [cnS, cnL4, cnT]] fixSt
      [List.replicate 10 'G', List.replicate 10 'G', List.replicate 4 'T'] 0
      (by decide) (by decide) (by decide) (by decide) fixDL⟩

/-- C8 (amended): when the two interior sub-paths merge to identical
sequences, have equal node counts, and the structural palindrome
verification succeeds (they differ at their first mismatch by exactly a
strand flip and agree afterwards), the first candidate path is returned
unmodified and no new contig is synthesized (the state is returned
untouched), for every pairwise oracle `nw`. -/
theorem claim_C8_pairwise_palindrome (ctx : Ctx) (g : GraphModel)
    (nw : NWOracle) (s0 s1 : ContigPath) (st : St) (f : List Char) (i : Nat)
    (h1 : 1 < s0.length) (h2 : 1 < s1.length) (h3 : s0.head? = s1.head?)
    (h4 : s0.getLast? = s1.getLast?)
    (h5 : ((s0.drop 1).dropLast).isEmpty = false)
    (h6 : ((s1.drop 1).dropLast).isEmpty = false)
    (h7 : mergePath ctx g ((s0.drop 1).dropLast) = .ok f)
    (h8 : mergePath ctx g ((s1.drop 1).dropLast) = .ok f)
    (h9 : ((s0.drop 1).dropLast).length = ((s1.drop 1).dropLast).length)
    (h10 : mismatchIdx ((s0.drop 1).dropLast) ((s1.drop 1).dropLast) = some i)
    (h11 : ((s0.drop 1).dropLast).getD i default
        = complementNode (((s1.drop 1).dropLast).getD i default))
    (h12 : ((s0.drop 1).dropLast).drop (i + 1)
        = ((s1.drop 1).dropLast).drop (i + 1)) :
    alignPair ctx g nw [s0, s1] st = .ok (s0, st) := by
  simp only [alignPair]
  rw [if_pos ⟨h1, h2, h3, h4⟩]
  simp only [h5, h6, Bool.or_self, Bool.false_eq_true, if_false, h7, h8]
  simp only [if_true]
  rw [if_pos h9, h10]
  exact if_pos ⟨h11, h12⟩

/-- Witness for C8: the palindromic contig `ACGT` traversed forward in
one candidate and reverse-complemented in the other; the first candidate
is returned and the state (in particular the fresh-id counter and the
FASTA stream) is unchanged. -/
theorem claim_C8_witness :
    alignPair fixCtx fixGraph fixNW [[cnS, cnP0, cnT], [cnS, cnP1, cnT]] fixSt
      = .ok ([cnS, cnP0, cnT], fixSt) :=
  claim_C8_pairwise_palindrome fixCtx fixGraph fixNW [cnS, cnP0, cnT]
    [cnS, cnP1, cnT] fixSt "ACGT".toList 0 (by decide) (by decide) (by decide)
    (by decide) (by decide) (by decide) (by decide) (by decide) (by decide)
    (by decide) (by decide) (by decide)

/-- C8 (counterexample to the claim as stated): two candidates whose
interiors are literally identical merge to identical sequences with equal
node counts, yet `alignPair` does not return the first candidate — the
`std::mismatch` assert fails and the run aborts. -/
theorem claim_C8_counterexample :
    alignPair fixCtx fixGraph fixNW [[cnS, cnP0, cnT], [cnS, cnP0, cnT]] fixSt
      = .error eAPmm := by
  decide

/-- One conflicting iteration of the merge retry loop with a trailing
filler present: exactly one `'n'` is chomped and the loop retries on the
shortened sequence. -/
theorem mergeLoop_conflict_chomp {overlap : Nat} {bo seq seq2 : List Char}
    (h : overlap < seq.length)
    (hcc : createConsensus (seq.drop (seq.length - overlap)) bo = .ok [])
    (hch : chomp seq 'n' = some seq2) :
    mergeLoop overlap bo seq = mergeLoop overlap bo seq2 := by
  conv_lhs => rw [mergeLoop]
  rw [if_pos h, hcc]
  simp only [List.isEmpty_nil, if_true]
  split
  · rename_i s2 heq
    rw [hch] at heq
    simp only [Option.some.injEq] at heq
    rw [heq]
  · rename_i heq
    rw [hch] at heq
    cases heq

/-- A conflicting iteration with no trailing filler left: the loop stops,
reporting the failed (empty) consensus. -/
theorem mergeLoop_conflict_stop {overlap : Nat} {bo seq : List Char}
    (h : overlap < seq.length)
    (hcc : createConsensus (seq.drop (seq.length - overlap)) bo = .ok [])
    (hch : chomp seq 'n' = none) :
    mergeLoop overlap bo seq = .ok (seq, []) := by
  rw [mergeLoop]
  rw [if_pos h, hcc]
  simp only [List.isEmpty_nil, if_true]
  split
  · rename_i s2 heq
    rw [hch] at heq
    cases heq
  · rfl

/-- The loop-top assertion: when the accumulated sequence is not longer
than the overlap, the iteration aborts. -/
theorem mergeLoop_assert {overlap : Nat} {bo seq : List Char}
    (h : ¬ overlap < seq.length) :
    mergeLoop overlap bo seq = .error eSeqLen := by
  rw [mergeLoop]
  rw [if_neg h]

/-- C5 (amended): in the overlap merge, on a per-base conflict exactly
one trailing filler base is trimmed and the consensus retried (first
conjunct); when no trailing filler remains the merge fails softly — a
single `'n'` separator is inserted between the accumulated sequence and
the whole next sequence, the event is flagged as a warning, and the call
returns normally (second conjunct).  Amendment forced by the
counterexample: each retry re-asserts that the accumulated sequence is
still longer than the overlap, and aborts otherwise (third conjunct),
so "never aborts" only holds while that assertion does. -/
theorem claim_C5_conflict_handling (overlap : Nat) (seq s seq2 : List Char) :
    (overlap < seq.length →
      createConsensus (seq.drop (seq.length - overlap)) (s.take overlap)
        = .ok [] →
      chomp seq 'n' = some seq2 →
      mergeLoop overlap (s.take overlap) seq
        = mergeLoop overlap (s.take overlap) seq2)
    ∧ (overlap < seq.length → overlap < s.length →
      createConsensus (seq.drop (seq.length - overlap)) (s.take overlap)
        = .ok [] →
      chomp seq 'n' = none →
      mergeContigs overlap seq s = .ok (seq ++ 'n' :: s, true))
    ∧ (¬ overlap < seq.length →
      mergeLoop overlap (s.take overlap) seq = .error eSeqLen) := by
  refine ⟨fun h hcc hch => mergeLoop_conflict_chomp h hcc hch,
          fun h hs hcc hch => ?_,
          fun h => mergeLoop_assert h⟩
  unfold mergeContigs
  rw [if_pos hs]
  simp only [mergeLoop_conflict_stop h hcc hch, List.isEmpty_nil, if_true]

/-- Witness for C5: a conflict with a trailing filler retries on the
once-chomped sequence; a conflict with no trailing filler soft-fails with
the `'n'` separator and the warning flag; a retry arriving at a sequence
no longer than the overlap aborts. -/
theorem claim_C5_witness :
    mergeLoop 2 ("TTT".toList.take 2) "ACn".toList
        = mergeLoop 2 ("TTT".toList.take 2) "AC".toList
    ∧ mergeContigs 2 "GAC".toList "TTT".toList
        = .ok ("GAC".toList ++ 'n' :: "TTT".toList, true)
    ∧ mergeLoop 2 ("TTT".toList.take 2) "AC".toList = .error eSeqLen :=
  ⟨(claim_C5_conflict_handling 2 "ACn".toList "TTT".toList "AC".toList).1
      (by decide) (by decide) (by decide),
   (claim_C5_conflict_handling 2 "GAC".toList "TTT".toList []).2.1
      (by decide) (by decide) (by decide) (by decide),
   (claim_C5_conflict_handling 2 "AC".toList "TTT".toList []).2.2 (by decide)⟩

/-- C5 (counterexample to "processing continues (never aborts)"): with
accumulated sequence `ACnn`, next sequence `TTTT` and overlap 3, the
first conflict chomps one filler, and the retry's loop-top assertion
`seq.length() > overlap` fails — the merge aborts instead of soft-failing. -/
theorem claim_C5_counterexample :
    mergeContigs 3 "ACnn".toList "TTTT".toList = .error eSeqLen := by
  have h1 : mergeLoop 3 ("TTTT".toList.take 3) "ACnn".toList
      = mergeLoop 3 ("TTTT".toList.take 3) "ACn".toList :=
    mergeLoop_conflict_chomp (by decide) (by decide) (by decide)
  have h2 : mergeLoop 3 ("TTTT".toList.take 3) "ACn".toList
      = .error eSeqLen := mergeLoop_assert (by decide)
  simp only [mergeContigs, h1, h2]
  decide

/-- C9 (amended): the path loader performs no flanking-node check and
never aborts — its interior scan visits exactly the positions
`1 .. length-2`, each of which has both neighbours by construction.  A
registry constraint exists precisely for the interior ambiguous nodes,
and a path is flagged ambiguous precisely when it has an interior
ambiguous node; ambiguous nodes in the first or last position are
silently ignored by the loader. -/
theorem claim_C9_loader_scans_interior_only (p : ContigPath) :
    (∀ k : AmbPathConstraint,
      k ∈ pathConstraints p ↔
        ∃ i, 0 < i ∧ i + 1 < p.length ∧ (p.getD i default).amb = true
          ∧ k = { source := p.getD (i - 1) default,
                  dest := p.getD (i + 1) default,
                  dist := -(((p.getD i default).id : Int)) })
    ∧ (pathIsAmb p = true ↔
        ∃ i, 0 < i ∧ i + 1 < p.length ∧ (p.getD i default).amb = true) := by
  constructor
  · intro k
    by_cases hlen : p.length ≤ 2
    · simp only [pathConstraints, if_pos hlen, List.not_mem_nil, false_iff]
      rintro ⟨i, hi, hilen, -, -⟩
      omega
    · simp only [pathConstraints, if_neg hlen, List.mem_filterMap, List.mem_map,
        List.mem_range]
      constructor
      · rintro ⟨i, ⟨j, hj, rfl⟩, hf⟩
        by_cases ha : (p.getD (j + 1) default).amb = true
        · rw [if_pos ha] at hf
          simp only [Option.some.injEq] at hf
          exact ⟨j + 1, by omega, by omega, ha, hf.symm⟩
        · rw [if_neg ha] at hf; cases hf
      · rintro ⟨i, hi0, hilen, ha, rfl⟩
        refine ⟨i, ⟨i - 1, by omega, by omega⟩, ?_⟩
        rw [if_pos ha]
  · by_cases hlen : p.length ≤ 2
    · simp only [pathIsAmb, if_pos hlen, Bool.false_eq_true, false_iff]
      rintro ⟨i, hi, hilen, -⟩
      omega
    · simp only [pathIsAmb, if_neg hlen, List.any_eq_true, List.mem_map,
        List.mem_range]
      constructor
      · rintro ⟨i, ⟨j, hj, rfl⟩, ha⟩
        exact ⟨j + 1, by omega, by omega, ha⟩
      · rintro ⟨i, hi0, hilen, ha⟩
        exact ⟨i, ⟨i - 1, by omega, by omega⟩, ha⟩

/-- C9 (counterexample to the claim as stated): a three-node path whose
FIRST node is ambiguous — so that ambiguous node has no previous node —
is accepted without any abort: the whole run completes normally, no
constraint is registered (`numAmbPaths = 0`), and the path is emitted
verbatim.  The claimed fatal malformed-input diagnostic does not exist. -/
theorem claim_C9_counterexample :
    mainPipeline fixCtx fixGraph fixNW fixDL searchOne [[cnGap3, cnS, cnT]] 5
      = .ok { singletons := [], outPaths := [[cnGap3, cnS, cnT]],
              stats := { numAmbPaths := 0 }, fasta := [],
              newVertices := [] } := by
  rfl

/-- The duplicate test of `registryInsert` is exactly key membership. -/
theorem registryInsert_any_iff (m : List (AmbPathConstraint × ContigPath))
    (key : AmbPathConstraint) :
    m.any (fun e => e.1 = key) = true ↔ key ∈ m.map Prod.fst := by
  simp [List.any_eq_true, List.mem_map]

/-- Key membership after one `std::map::insert`. -/
theorem registryInsert_mem (m : List (AmbPathConstraint × ContigPath))
    (key k : AmbPathConstraint) :
    k ∈ (registryInsert m key).map Prod.fst
      ↔ k ∈ m.map Prod.fst ∨ k = key := by
  unfold registryInsert
  by_cases hp : m.any (fun e => e.1 = key) = true
  · rw [if_pos hp]
    have := (registryInsert_any_iff m key).mp hp
    constructor
    · exact fun h => Or.inl h
    · rintro (h | rfl)
      · exact h
      · exact this
  · rw [if_neg hp]
    simp [List.mem_map]

/-- `std::map::insert` keeps the key list duplicate-free. -/
theorem registryInsert_nodup {m : List (AmbPathConstraint × ContigPath)}
    (key : AmbPathConstraint) (hd : (m.map Prod.fst).Nodup) :
    ((registryInsert m key).map Prod.fst).Nodup := by
  unfold registryInsert
  by_cases hp : m.any (fun e => e.1 = key) = true
  · rw [if_pos hp]; exact hd
  · rw [if_neg hp]
    have hnot : key ∉ m.map Prod.fst := fun hmem =>
      hp ((registryInsert_any_iff m key).mpr hmem)
    rw [List.map_append]
    refine hd.append (by simp) ?_
    intro a ha hb
    simp only [List.map_cons, List.map_nil, List.mem_singleton] at hb
    exact hnot (hb ▸ ha)

/-- Key membership after folding a list of inserts. -/
theorem foldl_registryInsert_mem (l : List AmbPathConstraint) :
    ∀ (m : List (AmbPathConstraint × ContigPath)) (k : AmbPathConstraint),
      k ∈ ((l.foldl registryInsert m).map Prod.fst)
        ↔ k ∈ m.map Prod.fst ∨ k ∈ l := by
  induction l with
  | nil => intro m k; simp
  | cons a l ih =>
    intro m k
    simp only [List.foldl_cons, ih, registryInsert_mem, List.mem_cons]
    tauto

/-- Folding inserts keeps the key list duplicate-free. -/
theorem foldl_registryInsert_nodup (l : List AmbPathConstraint) :
    ∀ (m : List (AmbPathConstraint × ContigPath)),
      (m.map Prod.fst).Nodup → ((l.foldl registryInsert m).map Prod.fst).Nodup := by
  induction l with
  | nil => intro m hd; exact hd
  | cons a l ih =>
    intro m hd
    exact ih (registryInsert m a) (registryInsert_nodup a hd)

/-- A key is in the loaded registry exactly when some input path
contributed it. -/
theorem loadRegistry_mem (paths : List ContigPath) (k : AmbPathConstraint) :
    k ∈ ((loadRegistry paths).map Prod.fst)
      ↔ ∃ p ∈ paths, k ∈ pathConstraints p := by
  have main : ∀ (ps : List ContigPath)
      (m : List (AmbPathConstraint × ContigPath)),
      k ∈ ((ps.foldl (fun m p => (pathConstraints p).foldl registryInsert m)
          m).map Prod.fst)
        ↔ k ∈ m.map Prod.fst ∨ ∃ p ∈ ps, k ∈ pathConstraints p := by
    intro ps
    induction ps with
    | nil => intro m; simp
    | cons p ps ih =>
      intro m
      simp only [List.foldl_cons, ih, foldl_registryInsert_mem, List.mem_cons]
      constructor
      · rintro ((h | h) | ⟨q, hq, hk⟩)
        · exact Or.inl h
        · exact Or.inr ⟨p, Or.inl rfl, h⟩
        · exact Or.inr ⟨q, Or.inr hq, hk⟩
      · rintro (h | ⟨q, rfl | hq, hk⟩)
        · exact Or.inl (Or.inl h)
        · exact Or.inl (Or.inr hk)
        · exact Or.inr ⟨q, hq, hk⟩
  unfold loadRegistry
  rw [main paths []]
  simp

/-- The loaded registry's key list is duplicate-free. -/
theorem loadRegistry_nodup (paths : List ContigPath) :
    ((loadRegistry paths).map Prod.fst).Nodup := by
  have main : ∀ (ps : List ContigPath)
      (m : List (AmbPathConstraint × ContigPath)),
      (m.map Prod.fst).Nodup →
      ((ps.foldl (fun m p => (pathConstraints p).foldl registryInsert m)
          m).map Prod.fst).Nodup := by
    intro ps
    induction ps with
    | nil => intro m hd; exact hd
    | cons p ps ih =>
      intro m hd
      exact ih _ (foldl_registryInsert_nodup (pathConstraints p) m hd)
  exact main paths [] (by simp)

/-- The resolution loop rewrites values only: the key list survives. -/
theorem resolveAll_map_fst {ctx : Ctx} {g : GraphModel} {nw : NWOracle}
    {dl : MultiOracle} {search : SearchOracle}
    (m : List (AmbPathConstraint × ContigPath)) :
    ∀ {seen : List Bool} {st : St}
      {res : List (AmbPathConstraint × ContigPath)} {seen2 : List Bool}
      {st2 : St},
      resolveAll ctx g nw dl search m seen st = .ok (res, seen2, st2) →
      res.map Prod.fst = m.map Prod.fst := by
  induction m with
  | nil =>
    intro seen st res seen2 st2 h
    simp only [resolveAll, Except.ok.injEq, Prod.mk.injEq] at h
    rw [← h.1]
  | cons e rest ih =>
    intro seen st res seen2 st2 h
    simp only [resolveAll] at h
    split at h
    · cases h
    · rename_i c seen3 st3 heq
      split at h
      · cases h
      · rename_i res2 seen4 st4 heq2
        simp only [Except.ok.injEq, Prod.mk.injEq] at h
        rw [← h.1, List.map_cons, List.map_cons, ih heq2]

/-- C6: every (source, destination, negated gap length) triple occurring
as an interior ambiguous run of some input path has exactly one entry in
the Gap Registry (later occurrences neither duplicate nor overwrite it),
and the resolution loop — which invokes `fillGap` once per entry — holds
exactly one resolved entry for that key afterwards, so all paths
referencing the gap read the same resolution. -/
theorem claim_C6_registry_idempotence (paths : List ContigPath)
    (k : AmbPathConstraint) (hocc : ∃ p ∈ paths, k ∈ pathConstraints p) :
    countKey (loadRegistry paths) k = 1 ∧
      ∀ (ctx : Ctx) (g : GraphModel) (nw : NWOracle) (dl : MultiOracle)
        (search : SearchOracle) (seen : List Bool) (st : St)
        (res : List (AmbPathConstraint × ContigPath)) (seen2 : List Bool)
        (st2 : St),
        resolveAll ctx g nw dl search (loadRegistry paths) seen st
          = .ok (res, seen2, st2) →
        countKey res k = 1 := by
  have hmem : k ∈ ((loadRegistry paths).map Prod.fst) :=
    (loadRegistry_mem paths k).mpr hocc
  have h1 : countKey (loadRegistry paths) k = 1 :=
    List.count_eq_one_of_mem (loadRegistry_nodup paths) hmem
  refine ⟨h1, ?_⟩
  intro ctx g nw dl search seen st res seen2 st2 hres
  unfold countKey
  rw [resolveAll_map_fst (loadRegistry paths) hres]
  exact h1

/-- Witness for C6: two input paths referencing the identical gap
populate one registry entry, and after resolution exactly one resolved
entry carries that key. -/
theorem claim_C6_witness :
    countKey (loadRegistry fixPaths2) fixKey = 1
      ∧ countKey [(fixKey, ([] : ContigPath))] fixKey = 1 :=
  ⟨(claim_C6_registry_idempotence fixPaths2 fixKey (by decide)).1,
   (claim_C6_registry_idempotence fixPaths2 fixKey (by decide)).2 fixCtx
      fixGraph fixNW fixDL searchOne [] fixSt [(fixKey, [])] []
      { nextId := 9, newVertices := [], fasta := [],
        stats := { numMerged := 1 } } (by decide)⟩


/-- `outputNewContig` never touches the run-summary counters. -/
theorem outputNewContig_stats {solutions : List ContigPath} {pre suf : Nat}
    {seq : List Char} {cov id : Nat} {st st2 : St}
    (h : outputNewContig solutions pre suf seq cov st = .ok (id, st2)) :
    st2.stats = st.stats := by
  unfold outputNewContig at h
  dsimp only [] at h
  repeat' split at h
  all_goals try exact Except.noConfusion h
  all_goals simp only [Except.ok.injEq, Prod.mk.injEq] at h
  all_goals rw [← h.2]

/-- `alignPair` never touches the run-summary counters. -/
theorem alignPair_stats {ctx : Ctx} {g : GraphModel} {nw : NWOracle}
    {solutions : List ContigPath} {st : St} {c : ContigPath} {st2 : St}
    (h : alignPair ctx g nw solutions st = .ok (c, st2)) :
    st2.stats = st.stats := by
  unfold alignPair at h
  dsimp only [] at h
  repeat' split at h
  all_goals try exact Except.noConfusion h
  all_goals simp only [Except.ok.injEq, Prod.mk.injEq] at h
  all_goals rw [← h.2]
  all_goals exact outputNewContig_stats (by assumption)

/-- `alignMulti` never touches the run-summary counters. -/
theorem alignMulti_stats {ctx : Ctx} {g : GraphModel} {dl : MultiOracle}
    {solutions : List ContigPath} {st : St} {c : ContigPath} {st2 : St}
    (h : alignMulti ctx g dl solutions st = .ok (c, st2)) :
    st2.stats = st.stats := by
  unfold alignMulti at h
  dsimp only [] at h
  repeat' split at h
  all_goals try exact Except.noConfusion h
  all_goals simp only [Except.ok.injEq, Prod.mk.injEq] at h
  all_goals rw [← h.2]
  all_goals exact outputNewContig_stats (by assumption)

/-- `align` never touches the run-summary counters. -/
theorem alignF_stats {ctx : Ctx} {g : GraphModel} {nw : NWOracle}
    {dl : MultiOracle} {sequences : List ContigPath} {st : St}
    {c : ContigPath} {st2 : St}
    (h : alignF ctx g nw dl sequences st = .ok (c, st2)) :
    st2.stats = st.stats := by
  unfold alignF at h
  repeat' split at h
  all_goals first
    | exact Except.noConfusion h
    | exact alignPair_stats h
    | exact alignMulti_stats h

/-- One `fillGap` call increments the five-counter sum by exactly one and
leaves the gap tally unchanged. -/
theorem fillGap_statsSum {ctx : Ctx} {g : GraphModel} {nw : NWOracle}
    {dl : MultiOracle} {search : SearchOracle} {apc : AmbPathConstraint}
    {seen : List Bool} {st : St} {c : ContigPath} {sn : List Bool} {st2 : St}
    (h : fillGap ctx g nw dl search apc seen st = .ok (c, sn, st2)) :
    statsSum st2.stats = statsSum st.stats + 1
      ∧ st2.stats.numAmbPaths = st.stats.numAmbPaths := by
  unfold fillGap at h
  dsimp only [] at h
  repeat' split at h
  all_goals try exact Except.noConfusion h
  all_goals simp only [Except.ok.injEq, Prod.mk.injEq] at h
  all_goals rw [← h.2.2]
  all_goals try (rename_i heq hcond; rw [alignF_stats heq])
  all_goals refine ⟨?_, by simp⟩
  all_goals simp [statsSum]
  all_goals omega

/-- The resolution loop increments the five-counter sum once per registry
entry and leaves the gap tally unchanged. -/
theorem resolveAll_statsSum {ctx : Ctx} {g : GraphModel} {nw : NWOracle}
    {dl : MultiOracle} {search : SearchOracle}
    (m : List (AmbPathConstraint × ContigPath)) :
    ∀ {seen : List Bool} {st : St}
      {res : List (AmbPathConstraint × ContigPath)} {seen2 : List Bool}
      {st2 : St},
      resolveAll ctx g nw dl search m seen st = .ok (res, seen2, st2) →
      statsSum st2.stats = statsSum st.stats + m.length
        ∧ st2.stats.numAmbPaths = st.stats.numAmbPaths := by
  induction m with
  | nil =>
    intro seen st res seen2 st2 h
    simp only [resolveAll, Except.ok.injEq, Prod.mk.injEq] at h
    rw [← h.2.2]
    simp
  | cons e rest ih =>
    intro seen st res seen2 st2 h
    simp only [resolveAll] at h
    split at h
    · cases h
    · rename_i c seen3 st3 heq
      split at h
      · cases h
      · rename_i res2 seen4 st4 heq2
        simp only [Except.ok.injEq, Prod.mk.injEq] at h
        rw [← h.2.2]
        obtain ⟨hs1, ha1⟩ := fillGap_statsSum heq
        obtain ⟨hs2, ha2⟩ := ih heq2
        refine ⟨?_, by rw [ha2, ha1]⟩
        rw [hs2, hs1, List.length_cons]
        omega

/-- C10: every gap constraint resolved by the loop lands in exactly one
of the five outcome counters, so when the pipeline completes, the sum of
merged, no-solution, too-many, too-complex and not-merged equals the
"Ambiguous paths" tally (the number of distinct registry constraints). -/
theorem claim_C10_counter_partition (ctx : Ctx) (g : GraphModel)
    (nw : NWOracle) (dl : MultiOracle) (search : SearchOracle)
    (paths : List ContigPath) (startId : Nat) (out : Output)
    (h : mainPipeline ctx g nw dl search paths startId = .ok out) :
    statsSum out.stats = out.stats.numAmbPaths := by
  unfold mainPipeline at h
  dsimp only [] at h
  split at h
  · cases h
  · rename_i res seen1 st1 heq
    split at h
    · cases h
    · simp only [Except.ok.injEq] at h
      obtain ⟨hs, ha⟩ := resolveAll_statsSum _ heq
      rw [← h]
      dsimp only []
      rw [hs, ha]
      simp [statsSum]

/-- Witness for C10: a completed run over two copies of the same
ambiguous path — one registry constraint, counted once as merged; the
five counters sum to the gap tally 1. -/
theorem claim_C10_witness :
    statsSum ({ numAmbPaths := 1, numMerged := 1 } : Stats)
      = ({ numAmbPaths := 1, numMerged := 1 } : Stats).numAmbPaths :=
  claim_C10_counter_partition fixCtx fixGraph fixNW fixDL searchOne fixPaths2 7
    { singletons := [], outPaths := fixPaths2,
      stats := { numAmbPaths := 1, numMerged := 1 }, fasta := [],
      newVertices := [] } (by rfl)

/-- Folding `markSeen` over one path: positions the path references get
the flag, all others keep their previous mark. -/
theorem markSeen_cons (seen : List Bool) (nd : ContigNode) (p : ContigPath)
    (flag : Bool) :
    markSeen seen (nd :: p) flag
      = markSeen (if nd.amb = false ∧ nd.id < seen.length
          then seen.set nd.id flag else seen) p flag := rfl

/-- `markSeen` preserves the length of the mark array. -/
theorem markSeen_length : ∀ (p : ContigPath) (seen : List Bool) (flag : Bool),
    (markSeen seen p flag).length = seen.length := by
  intro p
  induction p with
  | nil => intro seen flag; rfl
  | cons nd p ih =>
    intro seen flag
    rw [markSeen_cons, ih]
    split <;> simp

/-- The mark of contig `i` after `markSeen`: the flag if the path
references `i`, the old mark otherwise. -/
theorem markSeen_getD : ∀ (p : ContigPath) (seen : List Bool) (flag : Bool)
    (i : Nat), i < seen.length →
    (markSeen seen p flag).getD i false
      = if refNode i p then flag else seen.getD i false := by
  intro p
  induction p with
  | nil =>
    intro seen flag i hi
    simp [markSeen, refNode]
  | cons nd p ih =>
    intro seen flag i hi
    rw [markSeen_cons]
    have hlen : (if nd.amb = false ∧ nd.id < seen.length
        then seen.set nd.id flag else seen).length = seen.length := by
      split <;> simp
    rw [ih _ _ _ (by rw [hlen]; exact hi)]
    by_cases hr : refNode i p
    · rw [if_pos hr, if_pos (show refNode i (nd :: p) from by
        obtain ⟨x, hx, hxx⟩ := hr
        exact ⟨x, List.mem_cons_of_mem _ hx, hxx⟩)]
    · rw [if_neg hr]
      by_cases hm : nd.amb = false ∧ nd.id = i
      · have hg : nd.amb = false ∧ nd.id < seen.length :=
          ⟨hm.1, by rw [hm.2]; exact hi⟩
        rw [if_pos hg,
          if_pos (show refNode i (nd :: p) from
            ⟨nd, List.mem_cons_self nd p, hm⟩)]
        rw [hm.2]
        simp [List.getD_eq_getElem?_getD, List.getElem?_set_eq_of_lt flag hi]
      · have hnr : ¬ refNode i (nd :: p) := by
          rintro ⟨x, hx, hxx⟩
          rcases List.mem_cons.mp hx with rfl | hx2
          · exact hm hxx
          · exact hr ⟨x, hx2, hxx⟩
        rw [if_neg hnr]
        split
        · rename_i hg
          have hne : nd.id ≠ i := fun he => hm ⟨hg.1, he⟩
          simp [List.getD_eq_getElem?_getD, List.getElem?_set_ne hne]
        · rfl

/-- `markSeenPaths` peels one path at a time. -/
theorem markSeenPaths_cons (seen : List Bool) (p : ContigPath)
    (ps : List ContigPath) (flag : Bool) :
    markSeenPaths seen (p :: ps) flag
      = markSeenPaths (markSeen seen p flag) ps flag := rfl

/-- `markSeenPaths` preserves the length of the mark array. -/
theorem markSeenPaths_length : ∀ (ps : List ContigPath) (seen : List Bool)
    (flag : Bool), (markSeenPaths seen ps flag).length = seen.length := by
  intro ps
  induction ps with
  | nil => intro seen flag; rfl
  | cons p ps ih =>
    intro seen flag
    rw [markSeenPaths_cons, ih, markSeen_length]

/-- The mark of contig `i` after `markSeenPaths`: the flag if any path of
the list references `i`, the old mark otherwise. -/
theorem markSeenPaths_getD : ∀ (ps : List ContigPath) (seen : List Bool)
    (flag : Bool) (i : Nat), i < seen.length →
    (markSeenPaths seen ps flag).getD i false
      = if refNodeList i ps then flag else seen.getD i false := by
  intro ps
  induction ps with
  | nil =>
    intro seen flag i hi
    simp [markSeenPaths, refNodeList]
  | cons p ps ih =>
    intro seen flag i hi
    rw [markSeenPaths_cons]
    rw [ih _ _ _ (by rw [markSeen_length]; exact hi)]
    by_cases hr : refNodeList i ps
    · rw [if_pos hr, if_pos (show refNodeList i (p :: ps) from by
        obtain ⟨x, hx, hxx⟩ := hr
        exact ⟨x, List.mem_cons_of_mem _ hx, hxx⟩)]
    · rw [if_neg hr, markSeen_getD _ _ _ _ hi]
      by_cases hp : refNode i p
      · rw [if_pos hp,
          if_pos (show refNodeList i (p :: ps) from
            ⟨p, List.mem_cons_self p ps, hp⟩)]
      · have hnr : ¬ refNodeList i (p :: ps) := by
          rintro ⟨x, hx, hxx⟩
          rcases List.mem_cons.mp hx with rfl | hx2
          · exact hp hxx
          · exact hr ⟨x, hx2, hxx⟩
        rw [if_neg hp, if_neg hnr]

/-- The unmark loop over resolved registry entries is `markSeenPaths`
over the resolution paths. -/
theorem foldl_markSeen_eq :
    ∀ (res : List (AmbPathConstraint × ContigPath)) (seen : List Bool),
      res.foldl (fun sn e => markSeen sn e.2 false) seen
        = markSeenPaths seen (res.map Prod.snd) false := by
  intro res
  induction res with
  | nil => intro seen; rfl
  | cons e res ih =>
    intro seen
    rw [List.foldl_cons, ih, List.map_cons, markSeenPaths_cons]

/-- `fillGap` preserves the length of the mark array. -/
theorem fillGap_seen_length {ctx : Ctx} {g : GraphModel} {nw : NWOracle}
    {dl : MultiOracle} {search : SearchOracle} {apc : AmbPathConstraint}
    {seen : List Bool} {st : St} {c : ContigPath} {sn : List Bool} {st2 : St}
    (h : fillGap ctx g nw dl search apc seen st = .ok (c, sn, st2)) :
    sn.length = seen.length := by
  unfold fillGap at h
  dsimp only [] at h
  repeat' split at h
  all_goals try exact Except.noConfusion h
  all_goals simp only [Except.ok.injEq, Prod.mk.injEq] at h
  all_goals rw [← h.2.1]
  all_goals rw [markSeenPaths_length]

/-- The resolution loop preserves the length of the mark array. -/
theorem resolveAll_seen_length {ctx : Ctx} {g : GraphModel} {nw : NWOracle}
    {dl : MultiOracle} {search : SearchOracle}
    (m : List (AmbPathConstraint × ContigPath)) :
    ∀ {seen : List Bool} {st : St}
      {res : List (AmbPathConstraint × ContigPath)} {seen2 : List Bool}
      {st2 : St},
      resolveAll ctx g nw dl search m seen st = .ok (res, seen2, st2) →
      seen2.length = seen.length := by
  induction m with
  | nil =>
    intro seen st res seen2 st2 h
    simp only [resolveAll, Except.ok.injEq, Prod.mk.injEq] at h
    rw [← h.2.1]
  | cons e rest ih =>
    intro seen st res seen2 st2 h
    simp only [resolveAll] at h
    split at h
    · cases h
    · rename_i c seen3 st3 heq
      split at h
      · cases h
      · rename_i res2 seen4 st4 heq2
        simp only [Except.ok.injEq, Prod.mk.injEq] at h
        rw [← h.2.1, ih heq2, fillGap_seen_length heq]

/-- C2 (amended): the contigs emitted as single-contig lines are exactly
those that were MARKED SEEN during resolution (they appeared in the
candidate paths of some successfully merged gap) and are referenced
neither by any resolution path nor by any input path.  In particular a
contig that is referenced nowhere at all is NOT emitted — its mark was
never set — which is what the counterexample exhibits against the claim
as stated. -/
theorem claim_C2_singleton_lines (ctx : Ctx) (g : GraphModel) (nw : NWOracle)
    (dl : MultiOracle) (search : SearchOracle) (paths : List ContigPath)
    (startId : Nat) (out : Output)
    (res : List (AmbPathConstraint × ContigPath)) (seen1 : List Bool)
    (st1 : St)
    (hres : resolveAll ctx g nw dl search (loadRegistry paths)
        (List.replicate ctx.contigs.length false)
        { nextId := startId, newVertices := [], fasta := [],
          stats := { numAmbPaths := (loadRegistry paths).length } }
        = .ok (res, seen1, st1))
    (hmain : mainPipeline ctx g nw dl search paths startId = .ok out) :
    ∀ i, i < ctx.contigs.length →
      (i ∈ out.singletons ↔
        seen1.getD i false = true ∧ ¬ refNodeList i (res.map Prod.snd)
          ∧ ¬ refNodeList i paths) := by
  intro i hi
  have hlen1 : seen1.length = ctx.contigs.length := by
    have h := resolveAll_seen_length _ hres
    simpa using h
  unfold mainPipeline at hmain
  dsimp only [] at hmain
  rw [hres] at hmain
  dsimp only [] at hmain
  split at hmain
  · cases hmain
  · rename_i outs heq2
    simp only [Except.ok.injEq] at hmain
    rw [← hmain]
    dsimp only []
    rw [List.mem_filter, List.mem_range, foldl_markSeen_eq]
    rw [markSeenPaths_getD paths _ false i
      (by rw [markSeenPaths_length]; rw [hlen1]; exact hi)]
    rw [markSeenPaths_getD (res.map Prod.snd) seen1 false i
      (by rw [hlen1]; exact hi)]
    by_cases h1 : refNodeList i paths
    · simp [h1, hi]
    · by_cases h2 : refNodeList i (res.map Prod.snd)
      · simp [h1, h2, hi]
      · simp [h1, h2, hi]

/-- Witness for C2 (amended): on a run with no paths at all, contig 0 is
unmarked and unreferenced, and accordingly does not appear among the
single-contig lines. -/
theorem claim_C2_witness :
    (0 ∈ (Output.singletons
        { singletons := [], outPaths := [], stats := { numAmbPaths := 0 },
          fasta := [], newVertices := [] })
      ↔ (List.replicate 5 false).getD 0 false = true
          ∧ ¬ refNodeList 0
              (List.map Prod.snd ([] : List (AmbPathConstraint × ContigPath)))
          ∧ ¬ refNodeList 0 ([] : List ContigPath)) :=
  claim_C2_singleton_lines fixCtx fixGraph fixNW fixDL searchOne [] 0
    { singletons := [], outPaths := [], stats := { numAmbPaths := 0 },
      fasta := [], newVertices := [] } [] (List.replicate 5 false)
    { nextId := 0, newVertices := [], fasta := [],
      stats := { numAmbPaths := 0 } } (by rfl) (by rfl) 0 (by decide)

/-- C2 (counterexample to the claim as stated): in a run with no input
paths, every one of the five fixture contigs is "never referenced by any
input path and never appears in any resolved gap's path", so the claim
requires five single-contig lines — but the program emits none (the
seen marks start false and are only ever set during a successful
consensus). -/
theorem claim_C2_counterexample :
    mainPipeline fixCtx fixGraph fixNW fixDL searchOne [] 0
      = .ok { singletons := [], outPaths := [],
              stats := { numAmbPaths := 0 }, fasta := [],
              newVertices := [] } := by
  rfl
